import Mathlib

/-!
Shallow embedding of the confidential order-intake / matching / settlement
engine of this repository: the worker pass (`prototype/worker.js`,
`processLoop`) and the order-intake record construction
(`prototype/server.js`, the orders POST handler).

Modelling conventions:
* JS numbers that the engine compares and multiplies (price, amount,
  balances) are `Int`; timestamps are `Nat`.
* Optional cleartext fields of an order record (absent = `undefined` in JS)
  are `Option` values.  JS strict equality on possibly-undefined fields is
  `Option` equality (`undefined === undefined` is true, matching
  `none = none`).
* Cryptography is parameterised: `boxOpen ct nonce spk` abstracts
  `decodeBase64` on the three envelope fields followed by `nacl.box.open`
  with the worker's fixed secret key and `encodeUTF8`; `Except.error ()`
  models a thrown decode exception, `Except.ok none` an authenticated
  decryption failure (`nacl.box.open` returning `null`), `Except.ok (some s)`
  the recovered plaintext string.  `parseTerms s` abstracts `JSON.parse` on
  the plaintext producing the order-terms shape the client submits
  (`side`, `price`, `amount`, `owner`); `none` models a thrown parse error.
  Both oracles are pure functions, as the underlying operations are
  deterministic for the fixed key.
* File writes are modelled as state updates: the settlements and balances
  files are written immediately inside a match (worker.js lines 61, 113,
  125); the orders file write is deferred to the end of the pass and gated
  on the `changed` flag (line 137), which the model returns alongside the
  final in-memory state.
-/

/-- Decryption oracle: ciphertext, nonce and sender public key (base64
strings as stored on the order record) to decode/open outcome. -/
def BoxOpen : Type := String → String → String → Except Unit (Option String)

/-- Plaintext-parsing oracle: `JSON.parse` + reading the order-terms shape. -/
def ParseTerms (T : Type) : Type := String → Option T

/-- An order record exactly as persisted by the intake
(`server.js`, orders POST handler): envelope fields are always present
(demo orders carry the sentinel string "demo"); cleartext `side`, `price`,
`amount` are present only when submitted. -/
structure Order where
  id : String
  ciphertext : String
  nonce : String
  senderPublicKey : String
  status : String
  createdAt : Nat
  side : Option String
  price : Option Int
  amount : Option Int
deriving Repr, DecidableEq

/-- Decrypted order terms: the plaintext shape the client encrypts
(`side`, `price`, `amount`, `owner`; the client's `timestamp` field is
never read by the worker and is omitted). -/
structure Terms where
  side : String
  price : Int
  amount : Int
  owner : String
deriving Repr, DecidableEq

/-- One leg of a settlement.  The demo branch builds legs from the order
record's cleartext fields (no `owner`); the encrypted branch spreads the
decrypted terms (all fields present) plus the record's sender public key. -/
structure Leg where
  side : Option String
  price : Option Int
  amount : Option Int
  owner : Option String
  senderPublicKey : String
deriving Repr, DecidableEq

/-- A settlement record as appended to the settlements file. -/
structure Settlement where
  id : String
  buy : Leg
  sell : Leg
  price : Option Int
  amount : Option Int
  timestamp : Nat
deriving Repr, DecidableEq

/-- The three durable collections: orders, settlements, balances
(the balances file is a JS object, modelled as an association list with
unique keys). -/
structure EngState where
  orders : List Order
  settlements : List Settlement
  balances : List (String × Int)
deriving Repr, DecidableEq

/-- Specification-level trace event: one match performed by a step, with
the subject order's id, the counterpart's id, and the settlement written. -/
structure MEvent where
  subjectId : String
  counterId : String
  settlement : Settlement
deriving Repr, DecidableEq

/-- `o.ciphertext === 'demo' && o.nonce === 'demo'` (worker.js line 37). -/
def isDemoOrder (o : Order) : Bool :=
  o.ciphertext == "demo" && o.nonce == "demo"

/-- The demo-branch counterpart predicate (worker.js lines 39-44):
queued, different id, different cleartext side, equal cleartext price.
No decryption is consulted. -/
def demoPred (o x : Order) : Bool :=
  x.status == "queued" && x.id != o.id && x.side != o.side && x.price == o.price

/-- `Array.prototype.find` returning the first hit together with its
index (the worker mutates the found element in place, which the model
renders as an indexed update). -/
def findQ (p : Order → Bool) : List Order → Option (Nat × Order)
  | [] => none
  | x :: xs =>
    if p x then some (0, x)
    else (findQ p xs).map (fun r => (r.1 + 1, r.2))

/-- The encrypted-branch counterpart search (worker.js lines 88-93):
skips non-queued orders and the subject, skips demo records, opens each
candidate's envelope (a thrown decode error propagates out of `find` —
`Except.error`), treats open-failure or parse-failure as no-match, and
accepts the first candidate whose decrypted side differs and price equals
the subject's.  On a hit it returns the index, the record, and the
candidate's decrypted terms (worker.js lines 97-98 recompute them; the
oracles are deterministic, so the recomputation yields the same terms). -/
def findOppEncRest (r : Except Unit (Option (Nat × Order × Terms))) :
    Except Unit (Option (Nat × Order × Terms)) :=
  r.map (Option.map (fun w => (w.1 + 1, w.2)))

def findOppEnc (bo : BoxOpen) (pt : ParseTerms Terms) (jside : String)
    (jprice : Int) (oid : String) : List Order → Except Unit (Option (Nat × Order × Terms))
  | [] => .ok none
  | x :: xs =>
    if x.status == "queued" && x.id != oid then
      if x.ciphertext == "demo" then findOppEncRest (findOppEnc bo pt jside jprice oid xs)
      else
        match bo x.ciphertext x.nonce x.senderPublicKey with
        | .error e => .error e
        | .ok none => findOppEncRest (findOppEnc bo pt jside jprice oid xs)
        | .ok (some s) =>
          match pt s with
          | none => findOppEncRest (findOppEnc bo pt jside jprice oid xs)
          | some j =>
            if j.side != jside && j.price == jprice then .ok (some (0, x, j))
            else findOppEncRest (findOppEnc bo pt jside jprice oid xs)
    else findOppEncRest (findOppEnc bo pt jside jprice oid xs)

/-- A demo settlement leg (worker.js lines 49-50): cleartext fields plus
the record's sender public key; no owner field. -/
def demoLeg (x : Order) : Leg :=
  { side := x.side, price := x.price, amount := x.amount
    owner := none, senderPublicKey := x.senderPublicKey }

/-- An encrypted-branch settlement leg (worker.js lines 102-103):
the decrypted terms spread into the leg plus the record's sender public key. -/
def encLeg (j : Terms) (spk : String) : Leg :=
  { side := some j.side, price := some j.price, amount := some j.amount
    owner := some j.owner, senderPublicKey := spk }

/-- `Math.min` over possibly-undefined JS numbers (undefined propagates). -/
def jsMinO : Option Int → Option Int → Option Int
  | some a, some b => some (min a b)
  | _, _ => none

/-- The demo-branch settlement record (worker.js lines 52-59). -/
def demoSettlement (o opp : Order) (now : Nat) : Settlement :=
  { id := o.id ++ ":" ++ opp.id
    buy := if o.side == some "buy" then demoLeg o else demoLeg opp
    sell := if o.side == some "sell" then demoLeg o else demoLeg opp
    price := o.price
    amount := jsMinO o.amount opp.amount
    timestamp := now }

/-- The encrypted-branch settlement record (worker.js lines 104-111). -/
def encSettlement (o : Order) (json : Terms) (opp : Order) (oppJson : Terms)
    (now : Nat) : Settlement :=
  { id := o.id ++ ":" ++ opp.id
    buy := if json.side == "buy" then encLeg json o.senderPublicKey
           else encLeg oppJson opp.senderPublicKey
    sell := if json.side == "sell" then encLeg json o.senderPublicKey
            else encLeg oppJson opp.senderPublicKey
    price := some json.price
    amount := some (min json.amount oppJson.amount)
    timestamp := now }

/-- Read a balance entry; an absent key reads as 0 (`balances[k] || 0`). -/
def getBal (b : List (String × Int)) (k : String) : Int :=
  match b.find? (fun p => p.1 == k) with
  | some p => p.2
  | none => 0

/-- JS object assignment on the balances object: replace the key's entry
or add one. -/
def setBal (b : List (String × Int)) (k : String) (v : Int) : List (String × Int) :=
  if b.any (fun p => p.1 == k) then
    b.map (fun p => if p.1 == k then (k, v) else p)
  else b ++ [(k, v)]

/-- A JS truthiness fallback chain on an optional owner string
(`x.owner || x.ownerAddress || fallback`; the terms shape never carries
`ownerAddress`, which is therefore always undefined/falsy). -/
def jsOwnerKey (o : Option String) (fallback : String) : String :=
  match o with
  | some s => if s == "" then fallback else s
  | none => fallback

/-- Read `balances[leg.owner]` (an undefined owner indexes a key that was
never written, reading as 0). -/
def jsOwnerRead (b : List (String × Int)) (o : Option String) : Int :=
  match o with
  | some s => getBal b s
  | none => 0

/-- The balance update of the encrypted match branch (worker.js lines
121-125): the buy-side entry is written first, then the sell-side entry is
computed against the already-updated object.  Only the encrypted branch
performs this update; its settlements always carry `some` amount/price. -/
def updateBalances (b : List (String × Int)) (s : Settlement) : List (String × Int) :=
  let notional : Int := s.amount.getD 0 * s.price.getD 0
  let b1 := setBal b (jsOwnerKey s.buy.owner "buyer")
    (jsOwnerRead b s.buy.owner - notional)
  setBal b1 (jsOwnerKey s.sell.owner "seller")
    (jsOwnerRead b1 s.sell.owner + notional)

/-- One iteration of the `for (const o of orders)` loop of `processLoop`
(worker.js lines 33-136) on the order at position `i`: returns the updated
state, whether this iteration set the `changed` flag, and the match events
it produced (zero or one). -/
def stepOrder (bo : BoxOpen) (pt : ParseTerms Terms) (now : Nat)
    (st : EngState) (i : Nat) : EngState × Bool × List MEvent :=
  match st.orders[i]? with
  | none => (st, false, [])
  | some o =>
    if o.status != "queued" then (st, false, [])
    else if isDemoOrder o then
      match findQ (demoPred o) st.orders with
      | none => (st, false, [])
      | some (j, opp) =>
        let s := demoSettlement o opp now
        (⟨(st.orders.set i { o with status := "filled" }).set j { opp with status := "filled" },
          st.settlements ++ [s], st.balances⟩,
         true, [⟨o.id, opp.id, s⟩])
    else
      match bo o.ciphertext o.nonce o.senderPublicKey with
      | .error _ => (st, false, [])
      | .ok none =>
        (⟨st.orders.set i { o with status := "bad" }, st.settlements, st.balances⟩,
         true, [])
      | .ok (some plain) =>
        match pt plain with
        | none => (st, false, [])
        | some json =>
          match findOppEnc bo pt json.side json.price o.id st.orders with
          | .error _ => (st, false, [])
          | .ok none =>
            (⟨st.orders.set i { o with status := "queued" }, st.settlements, st.balances⟩,
             false, [])
          | .ok (some (j, opp, oppJson)) =>
            let s := encSettlement o json opp oppJson now
            (⟨(st.orders.set i { o with status := "filled" }).set j { opp with status := "filled" },
              st.settlements ++ [s],
              updateBalances st.balances s⟩,
             true, [⟨o.id, opp.id, s⟩])

/-- The scan of one pass from position `i` on, with `fuel` bounding the
remaining iterations (steps preserve the length of the order list, so
`fuel = length` from position 0 runs the whole pass). -/
def passFrom (bo : BoxOpen) (pt : ParseTerms Terms) (now : Nat) :
    Nat → Nat → EngState → Bool → EngState × Bool × List MEvent
  | 0, _, st, ch => (st, ch, [])
  | fuel + 1, i, st, ch =>
    match st.orders[i]? with
    | none => (st, ch, [])
    | some _ =>
      let r := stepOrder bo pt now st i
      let rest := passFrom bo pt now fuel (i + 1) r.1 (ch || r.2.1)
      (rest.1, rest.2.1, r.2.2 ++ rest.2.2)

/-- One full pass of `processLoop` over the snapshot read from the orders
file: final in-memory state, the `changed` flag, and the trace of matches. -/
def runPass (bo : BoxOpen) (pt : ParseTerms Terms) (now : Nat)
    (st : EngState) : EngState × Bool × List MEvent :=
  passFrom bo pt now st.orders.length 0 st false

/-- The orders-file write-back at the end of a pass (worker.js line 137):
when `changed` is set the file is overwritten with the pass's snapshot,
regardless of what the file holds at that moment; otherwise it is left
untouched. -/
def ordersFileAfterPass (snapshotResult : List Order) (changed : Bool)
    (fileBeforeWrite : List Order) : List Order :=
  if changed then snapshotResult else fileBeforeWrite

/-- The order record persisted by the intake (server.js, orders POST
handler): rejects a falsy ciphertext, nonce or sender public key, then
stores a queued record carrying the envelope verbatim together with
whatever cleartext `side`/`price`/`amount` accompanied the submission. -/
def submitOrder (ciphertext nonce senderPublicKey : String)
    (side : Option String) (price amount : Option Int)
    (id : String) (createdAt : Nat) : Option Order :=
  if ciphertext == "" || nonce == "" || senderPublicKey == "" then none
  else some
    { id := id, ciphertext := ciphertext, nonce := nonce
      senderPublicKey := senderPublicKey, status := "queued"
      createdAt := createdAt, side := side, price := price, amount := amount }

/-- The intake append (server.js lines 158-159): push onto the current
contents of the orders file. -/
def appendOrder (file : List Order) (r : Order) : List Order :=
  file ++ [r]

/-- No two entries of the list coincide (used for the uuid-generated
order ids). -/
def nodupKeys : List String → Bool
  | [] => true
  | x :: xs => xs.all (fun y => y != x) && nodupKeys xs

/-- Some entry of the order list carries this id with status queued. -/
def idQueuedL (l : List Order) (x : String) : Bool :=
  l.any (fun o => o.id == x && o.status == "queued")

/-- The event names this order id as subject or counterpart. -/
def mentionsEv (x : String) (ev : MEvent) : Bool :=
  ev.subjectId == x || ev.counterId == x

/-- Every iteration of the worker loop either leaves the state untouched,
marks one queued order `bad`, or settles two distinct queued orders:
it appends one settlement (whose id is subject-id `:` counterpart-id),
flips both statuses to `filled`, and reports exactly one match event. -/
inductive StepShape (st : EngState) : EngState × Bool × List MEvent → Prop
  | frame : StepShape st (st, false, [])
  | bad (i : Nat) (o : Order) (hi : st.orders[i]? = some o) (hq : o.status = "queued") :
      StepShape st
        (⟨st.orders.set i { o with status := "bad" }, st.settlements, st.balances⟩, true, [])
  | matched (i j : Nat) (o opp : Order) (s : Settlement) (bal : List (String × Int))
      (hi : st.orders[i]? = some o) (hj : st.orders[j]? = some opp)
      (hqi : o.status = "queued") (hqj : opp.status = "queued")
      (hid : opp.id ≠ o.id) (hsid : s.id = o.id ++ ":" ++ opp.id) :
      StepShape st
        (⟨(st.orders.set i { o with status := "filled" }).set j { opp with status := "filled" },
          st.settlements ++ [s], bal⟩, true, [⟨o.id, opp.id, s⟩])

/-- The decryption oracle under which every envelope fails authenticated
decryption (`nacl.box.open` returns `null` for every input). -/
def boFailAll : BoxOpen := fun _ _ _ => Except.ok none

/-- A decryption oracle recovering an unparseable plaintext from every
envelope. -/
def boGarbage : BoxOpen := fun _ _ _ => Except.ok (some "nonsense")

/-- The parsing oracle under which no plaintext parses (`JSON.parse`
throws on every recovered string). -/
def ptFailAll : ParseTerms Terms := fun _ => none

/-- A concrete demo-mode order record as the intake persists it. -/
def demoOrder (id sd : String) (pr am : Int) (spk : String) : Order :=
  { id := id, ciphertext := "demo", nonce := "demo", senderPublicKey := spk
    status := "queued", createdAt := 0, side := some sd, price := some pr
    amount := some am }

/-- The demo scenario of the specification: demo BUY at 10 for 5 units,
then demo SELL at 10 for 3 units, both queued, empty ledgers. -/
def demoScenario : EngState :=
  ⟨[demoOrder "1" "buy" 10 5 "spkA", demoOrder "2" "sell" 10 3 "spkB"], [], []⟩

/-- The record carries a real (non-sentinel) encrypted envelope. -/
def isRealEnvelope (o : Order) : Bool := !isDemoOrder o

/-- The record carries at least one cleartext order-terms field. -/
def hasCleartextTerms (o : Order) : Bool :=
  o.side.isSome || o.price.isSome || o.amount.isSome

/-- Modelled from the spec: exactly one representation (encrypted
envelope or demo-mode cleartext terms) is populated on the record,
never both. -/
def specExactlyOneRepr (o : Order) : Bool :=
  (isRealEnvelope o && !hasCleartextTerms o) || (!isRealEnvelope o && hasCleartextTerms o)

/-- A pass over this state performs no work on this order: it is not
queued, or it is a demo order with no eligible counterpart, or its
envelope cannot be processed (decode error, or unparseable plaintext, or
no encrypted counterpart found) without auth-failing.  Mirrors the
branches of `stepOrder` that leave the state untouched. -/
def quietOB (bo : BoxOpen) (pt : ParseTerms Terms) (st : EngState) (o : Order) : Bool :=
  if o.status != "queued" then true
  else if isDemoOrder o then (findQ (demoPred o) st.orders).isNone
  else
    match bo o.ciphertext o.nonce o.senderPublicKey with
    | .error _ => true
    | .ok none => false
    | .ok (some s) =>
      match pt s with
      | none => true
      | some json =>
        match findOppEnc bo pt json.side json.price o.id st.orders with
        | .error _ => true
        | .ok none => true
        | .ok (some _) => false

/-- The order record the intake persists for the mid-pass submission used
in the write-back race scenario. -/
def c1NewOrder : Order := ⟨"3", "CT", "NN", "SPK", "queued", 5, some "buy", some 7, some 1⟩

/-- An encrypted order stored with cleartext terms alongside its
ciphertext, as the bundled frontend always submits. -/
def c4Enc : Order := ⟨"2", "CT", "NN", "SPK2", "queued", 0, some "sell", some 10, some 3⟩

/-- A queued demo buy next to an encrypted order carrying matching
cleartext terms. -/
def c4St : EngState := ⟨[demoOrder "1" "buy" 10 5 "spkA", c4Enc], [], []⟩

/-- An encrypted order submitted without cleartext terms. -/
def c5Enc : Order := ⟨"9", "CT", "NN", "SPK", "queued", 0, none, none, none⟩

/-- A store holding only the encrypted order above. -/
def c5St : EngState := ⟨[c5Enc], [], []⟩

/-- Two queued demo buys competing for a single queued demo sell at the
same price. -/
def c6St : EngState :=
  ⟨[demoOrder "1" "buy" 10 5 "a", demoOrder "2" "buy" 10 5 "b",
    demoOrder "3" "sell" 10 4 "c"], [], []⟩

/-- The demo scenario with the two orders submitted in the opposite
order, so the sell is scanned first and becomes the match subject. -/
def c8Swapped : EngState :=
  ⟨[demoOrder "2" "sell" 10 3 "spkB", demoOrder "1" "buy" 10 5 "spkA"], [], []⟩

/-- The match event the demo scenario's first step produces. -/
def c8Ev : MEvent :=
  ⟨"1", "2", demoSettlement (demoOrder "1" "buy" 10 5 "spkA")
    (demoOrder "2" "sell" 10 3 "spkB") 0⟩

/-- The record the intake persists for an encrypted submission that also
carries cleartext terms. -/
def c9Rec : Order := ⟨"id1", "CT", "NN", "SPK", "queued", 0, some "buy", some 10, some 5⟩

/-- A concrete encrypted-branch settlement between owners alice and bob,
3 units at price 10. -/
def c3WitSettlement : Settlement :=
  { id := "x:y", buy := encLeg ⟨"buy", 10, 5, "alice"⟩ "PK1"
    sell := encLeg ⟨"sell", 10, 3, "bob"⟩ "PK2"
    price := some 10, amount := some 3, timestamp := 0 }

/-- An order already marked bad by an earlier pass. -/
def c7BadOrder : Order := ⟨"9", "CT", "NN", "SPK", "bad", 0, none, none, none⟩

/-- A store holding only an already-rejected order. -/
def c7BadSt : EngState := ⟨[c7BadOrder], [], []⟩

/-- A store holding one queued demo order with no counterpart. -/
def c10St : EngState := ⟨[demoOrder "1" "buy" 10 5 "a"], [], []⟩

/-- A decryption oracle opening exactly the two envelopes CT1 and CT2. -/
def boTwo : BoxOpen := fun ct _ _ =>
  if ct == "CT1" then Except.ok (some "p1")
  else if ct == "CT2" then Except.ok (some "p2")
  else Except.ok none

/-- A parsing oracle recovering a buy at 10 for 5 by alice from p1 and a
sell at 10 for 3 by bob from p2. -/
def ptTwo : ParseTerms Terms := fun s =>
  if s == "p1" then some ⟨"buy", 10, 5, "alice"⟩
  else if s == "p2" then some ⟨"sell", 10, 3, "bob"⟩
  else none

/-- An encrypted order whose envelope is CT1. -/
def encO1 : Order := ⟨"1", "CT1", "NN1", "SPK1", "queued", 0, none, none, none⟩

/-- An encrypted order whose envelope is CT2. -/
def encO2 : Order := ⟨"2", "CT2", "NN2", "SPK2", "queued", 0, none, none, none⟩

/-- A store holding the two matching encrypted orders. -/
def encSt : EngState := ⟨[encO1, encO2], [], []⟩

/-- The match event produced by the encrypted-subject step over `encSt`. -/
def c6EncEv : MEvent :=
  ⟨"1", "2", encSettlement encO1 ⟨"buy", 10, 5, "alice"⟩ encO2 ⟨"sell", 10, 3, "bob"⟩ 0⟩

/-! ## Generic list helpers -/

theorem engstate_eta (s : EngState) :
    (⟨s.orders, s.settlements, s.balances⟩ : EngState) = s := rfl

theorem order_set_status_self (o : Order) (h : o.status = "queued") :
    ({ o with status := "queued" } : Order) = o := by
  cases o with
  | mk a b c d stt e f g i => simp only at h ⊢; rw [h]

theorem getElem?_set' {α : Type} (l : List α) (i k : Nat) (a : α) :
    (l.set i a)[k]? = if k = i then (l[i]?).map (fun _ => a) else l[k]? := by
  induction l generalizing i k with
  | nil => simp
  | cons x xs ih =>
    cases i with
    | zero => cases k with
      | zero => simp
      | succ k => simp
    | succ i => cases k with
      | zero => simp
      | succ k => simpa [Nat.succ_ne_succ] using ih i k

theorem set_same' {α : Type} (l : List α) (i : Nat) (a : α)
    (h : l[i]? = some a) : l.set i a = l := by
  induction l generalizing i with
  | nil => rfl
  | cons x xs ih =>
    cases i with
    | zero => simp at h; simp [h]
    | succ i => simp at h; simp [ih i h]

theorem getElem?_map' {α β : Type} (f : α → β) (l : List α) (i : Nat) :
    (l.map f)[i]? = (l[i]?).map f := by
  simp

theorem map_set' {α β : Type} (f : α → β) (l : List α) (i : Nat) (a o : α)
    (h : l[i]? = some o) (hf : f a = f o) : (l.set i a).map f = l.map f := by
  induction l generalizing i with
  | nil => rfl
  | cons x xs ih =>
    cases i with
    | zero => simp at h; simp [h, hf]
    | succ i => simp at h; simp [ih i h]

theorem getElem?_mem' {α : Type} {l : List α} {i : Nat} {a : α}
    (h : l[i]? = some a) : a ∈ l := by
  induction l generalizing i with
  | nil => simp at h
  | cons x xs ih =>
    cases i with
    | zero => simp at h; simp [h]
    | succ i => simp at h; exact List.mem_cons_of_mem x (ih h)

theorem any_getElem?' {α : Type} (p : α → Bool) (l : List α) :
    l.any p = true ↔ ∃ (i : Nat) (a : α), l[i]? = some a ∧ p a = true := by
  induction l with
  | nil => simp
  | cons x xs ih =>
    simp only [List.any_cons, Bool.or_eq_true, ih]
    constructor
    · rintro (hx | ⟨i, a, h1, h2⟩)
      · exact ⟨0, x, by simp, hx⟩
      · exact ⟨i + 1, a, by simpa using h1, h2⟩
    · rintro ⟨i, a, h1, h2⟩
      cases i with
      | zero => simp at h1; exact Or.inl (h1 ▸ h2)
      | succ i => exact Or.inr ⟨i, a, by simpa using h1, h2⟩

theorem any_false_getElem?' {α : Type} {p : α → Bool} {l : List α}
    (h : l.any p = false) {i : Nat} {a : α} (ha : l[i]? = some a) :
    p a = false := by
  cases hp : p a with
  | false => rfl
  | true =>
    have : l.any p = true := (any_getElem?' p l).mpr ⟨i, a, ha, hp⟩
    rw [h] at this; exact absurd this (by simp)

theorem nodup_getElem?_ne' :
    ∀ (L : List String) (i j : Nat) (a b : String), nodupKeys L = true →
      L[i]? = some a → L[j]? = some b → i ≠ j → a ≠ b := by
  intro L
  induction L with
  | nil => intro i j a b _ h; simp at h
  | cons x xs ih =>
    intro i j a b hnd hi hj hij
    rw [show nodupKeys (x :: xs) = (xs.all (fun y => y != x) && nodupKeys xs) from rfl,
      Bool.and_eq_true] at hnd
    obtain ⟨hall, htl⟩ := hnd
    cases i with
    | zero =>
      cases j with
      | zero => exact absurd rfl hij
      | succ j =>
        simp at hi hj
        have hb : (b != x) = true := List.all_eq_true.mp hall b (getElem?_mem' hj)
        subst hi
        exact fun he => (by simp [he] at hb)
    | succ i =>
      cases j with
      | zero =>
        simp at hi hj
        have ha : (a != x) = true := List.all_eq_true.mp hall a (getElem?_mem' hi)
        subst hj
        exact fun he => (by simp [he] at ha)
      | succ j =>
        simp at hi hj
        exact ih i j a b htl hi hj (fun he => hij (by omega))

/-! ## Specifications of the two counterpart searches -/

theorem findQ_some (p : Order → Bool) :
    ∀ (l : List Order) (j : Nat) (x : Order), findQ p l = some (j, x) →
      l[j]? = some x ∧ p x = true ∧
        ∀ (k : Nat) (y : Order), k < j → l[k]? = some y → p y = false := by
  intro l
  induction l with
  | nil => intro j x h; simp [findQ] at h
  | cons a as ih =>
    intro j x h
    rw [show findQ p (a :: as)
        = (if p a then some (0, a) else (findQ p as).map (fun r => (r.1 + 1, r.2))) from rfl] at h
    by_cases hp : p a = true
    · rw [if_pos hp] at h
      simp only [Option.some.injEq, Prod.mk.injEq] at h
      obtain ⟨h1, h2⟩ := h
      subst h1; subst h2
      exact ⟨by simp, hp, fun k y hk => by omega⟩
    · rw [if_neg hp] at h
      obtain ⟨⟨j1, x1⟩, hr, he⟩ := Option.map_eq_some'.mp h
      simp only [Prod.mk.injEq] at he
      obtain ⟨hj1, hx1⟩ := he
      subst hj1; subst hx1
      obtain ⟨hg, hpx, hmin⟩ := ih j1 x1 hr
      refine ⟨by simpa using hg, hpx, ?_⟩
      intro k y hk hky
      cases k with
      | zero =>
        simp at hky; subst hky
        simpa using hp
      | succ k =>
        simp at hky
        exact hmin k y (by omega) hky

theorem findOppEncRest_some (r : Except Unit (Option (Nat × Order × Terms)))
    (j : Nat) (x : Order) (t : Terms)
    (h : findOppEncRest r = .ok (some (j, x, t))) :
    ∃ j1, r = .ok (some (j1, x, t)) ∧ j = j1 + 1 := by
  cases r with
  | error e => simp [findOppEncRest, Except.map] at h
  | ok o =>
    cases o with
    | none => simp [findOppEncRest, Except.map] at h
    | some w =>
      obtain ⟨j1, x1, t1⟩ := w
      simp only [findOppEncRest, Except.map, Option.map, Except.ok.injEq,
        Option.some.injEq, Prod.mk.injEq] at h
      obtain ⟨h1, h2, h3⟩ := h
      subst h2; subst h3
      exact ⟨j1, rfl, h1.symm⟩

theorem findOppEnc_some (bo : BoxOpen) (pt : ParseTerms Terms) (jside : String)
    (jprice : Int) (oid : String) :
    ∀ (l : List Order) (j : Nat) (x : Order) (t : Terms),
      findOppEnc bo pt jside jprice oid l = .ok (some (j, x, t)) →
      l[j]? = some x ∧ x.status = "queued" ∧ x.id ≠ oid ∧
        (x.ciphertext == "demo") = false := by
  intro l
  induction l with
  | nil => intro j x t h; simp [findOppEnc] at h
  | cons a as ih =>
    intro j x t h
    rw [findOppEnc] at h
    have hrest : ∀ (hh : findOppEncRest (findOppEnc bo pt jside jprice oid as)
          = .ok (some (j, x, t))),
        (a :: as)[j]? = some x ∧ x.status = "queued" ∧ x.id ≠ oid ∧
          (x.ciphertext == "demo") = false := by
      intro hh
      obtain ⟨j1, hw, hj⟩ := findOppEncRest_some _ _ _ _ hh
      subst hj
      obtain ⟨hg, hq2, hid2, hcd2⟩ := ih j1 x t hw
      exact ⟨by simpa using hg, hq2, hid2, hcd2⟩
    by_cases hc : (a.status == "queued" && a.id != oid) = true
    · rw [if_pos hc] at h
      obtain ⟨hst, hid⟩ : a.status = "queued" ∧ a.id ≠ oid := by
        rw [Bool.and_eq_true] at hc
        exact ⟨by simpa using hc.1, by simpa using hc.2⟩
      by_cases hdemo : (a.ciphertext == "demo") = true
      · rw [if_pos hdemo] at h; exact hrest h
      · rw [if_neg hdemo] at h
        cases hbo : bo a.ciphertext a.nonce a.senderPublicKey with
        | error e => rw [hbo] at h; simp at h
        | ok w =>
          rw [hbo] at h
          cases w with
          | none => dsimp only at h; exact hrest h
          | some s =>
            dsimp only at h
            cases hpt : pt s with
            | none => rw [hpt] at h; exact hrest h
            | some jt =>
              rw [hpt] at h
              dsimp only at h
              by_cases hmt : (jt.side != jside && jt.price == jprice) = true
              · rw [if_pos hmt] at h
                simp only [Except.ok.injEq, Option.some.injEq, Prod.mk.injEq] at h
                obtain ⟨h1, h2, h3⟩ := h
                subst h1; subst h2
                exact ⟨by simp, hst, hid, by rw [Bool.not_eq_true] at hdemo; exact hdemo⟩
              · rw [if_neg hmt] at h; exact hrest h
    · rw [if_neg hc] at h
      exact hrest h

/-! ## Shape of a single loop iteration -/

theorem stepOrder_shape (bo : BoxOpen) (pt : ParseTerms Terms) (now : Nat)
    (st : EngState) (i : Nat) : StepShape st (stepOrder bo pt now st i) := by
  unfold stepOrder
  cases hget : st.orders[i]? with
  | none => exact StepShape.frame
  | some o =>
    dsimp only
    by_cases hq : o.status = "queued"
    · rw [if_neg (by simp [hq])]
      by_cases hd : isDemoOrder o = true
      · rw [if_pos hd]
        cases hfq : findQ (demoPred o) st.orders with
        | none => exact StepShape.frame
        | some r =>
          obtain ⟨j, opp⟩ := r
          obtain ⟨hj, hp, _⟩ := findQ_some (demoPred o) st.orders j opp hfq
          have hcomp : opp.status = "queued" ∧ opp.id ≠ o.id := by
            rw [show demoPred o opp
                = (opp.status == "queued" && opp.id != o.id
                   && opp.side != o.side && opp.price == o.price) from rfl,
              Bool.and_eq_true, Bool.and_eq_true, Bool.and_eq_true] at hp
            exact ⟨by simpa using hp.1.1.1, by simpa using hp.1.1.2⟩
          exact StepShape.matched i j o opp (demoSettlement o opp now) st.balances
            hget hj hq hcomp.1 hcomp.2 rfl
      · rw [if_neg hd]
        cases hbo : bo o.ciphertext o.nonce o.senderPublicKey with
        | error e => exact StepShape.frame
        | ok w =>
          cases w with
          | none => exact StepShape.bad i o hget hq
          | some plain =>
            dsimp only
            cases hpt : pt plain with
            | none => exact StepShape.frame
            | some json =>
              dsimp only
              cases hfe : findOppEnc bo pt json.side json.price o.id st.orders with
              | error e => exact StepShape.frame
              | ok w2 =>
                cases w2 with
                | none =>
                  dsimp only
                  rw [order_set_status_self o hq, set_same' st.orders i o hget, engstate_eta]
                  exact StepShape.frame
                | some r =>
                  obtain ⟨j, opp, oppJson⟩ := r
                  obtain ⟨hj, hq2, hid2, _⟩ :=
                    findOppEnc_some bo pt json.side json.price o.id st.orders j opp oppJson hfe
                  exact StepShape.matched i j o opp (encSettlement o json opp oppJson now)
                    (updateBalances st.balances (encSettlement o json opp oppJson now))
                    hget hj hq hq2 hid2 rfl
    · rw [if_pos (by simpa using hq)]
      exact StepShape.frame

/-! ## Pass-level invariants -/

theorem idQueuedL_false_iff (l : List Order) (x : String) :
    idQueuedL l x = false ↔
      ∀ (k : Nat) (y : Order), l[k]? = some y → (y.id == x && y.status == "queued") = false := by
  constructor
  · intro h k y hk
    exact any_false_getElem?' h hk
  · intro h
    cases hq : idQueuedL l x with
    | false => rfl
    | true =>
      obtain ⟨k, y, hk, hp⟩ := (any_getElem?' _ _).mp hq
      rw [h k y hk] at hp
      exact absurd hp (by simp)

theorem idQueuedL_set_false (l : List Order) (i : Nat) (a : Order)
    (hsa : (a.status == "queued") = false) (x : String) (hx : idQueuedL l x = false) :
    idQueuedL (l.set i a) x = false := by
  rw [idQueuedL_false_iff] at hx ⊢
  intro k y hk
  rw [getElem?_set'] at hk
  by_cases hki : k = i
  · rw [if_pos hki] at hk
    cases hgi : l[i]? with
    | none => rw [hgi] at hk; simp at hk
    | some o =>
      rw [hgi] at hk
      simp at hk
      subst hk
      simp [hsa]
  · rw [if_neg hki] at hk
    exact hx k y hk

theorem idQueuedL_match_false (l : List Order) (i j : Nat) (o opp : Order)
    (hi : l[i]? = some o) (hj : l[j]? = some opp) (hij : i ≠ j)
    (hnd : nodupKeys (l.map Order.id) = true) :
    idQueuedL ((l.set i { o with status := "filled" }).set j { opp with status := "filled" }) o.id
      = false ∧
    idQueuedL ((l.set i { o with status := "filled" }).set j { opp with status := "filled" }) opp.id
      = false := by
  have key : ∀ (tgt : String) (tpos : Nat), tpos = i ∨ tpos = j →
      (l[tpos]? = some o ∨ l[tpos]? = some opp) →
      (∀ (y : Order), l[tpos]? = some y → y.id = tgt) →
      idQueuedL ((l.set i { o with status := "filled" }).set j { opp with status := "filled" }) tgt
        = false := by
    intro tgt tpos htpij htpos htgt
    rw [idQueuedL_false_iff]
    intro k y hk
    rw [getElem?_set'] at hk
    by_cases hkj : k = j
    · rw [if_pos hkj] at hk
      rw [getElem?_set', if_neg (by omega : j ≠ i), hj] at hk
      simp at hk
      subst hk
      simp
    · rw [if_neg hkj, getElem?_set'] at hk
      by_cases hki : k = i
      · rw [if_pos hki, hi] at hk
        simp at hk
        subst hk
        simp
      · rw [if_neg hki] at hk
        have htp : (l.map Order.id)[tpos]? = some tgt := by
          rw [getElem?_map']
          rcases htpos with hcase | hcase <;> rw [hcase] <;>
            simp [htgt _ hcase]
        have hky : (l.map Order.id)[k]? = some y.id := by
          rw [getElem?_map', hk]; rfl
        by_cases hkt : k = tpos
        · exfalso; rcases htpij with hc | hc <;> omega
        · have := nodup_getElem?_ne' (l.map Order.id) k tpos y.id tgt hnd hky htp hkt
          simp [this]
  constructor
  · exact key o.id i (Or.inl rfl) (Or.inl hi)
      (fun y hy => by rw [hi] at hy; injection hy with hy; rw [hy])
  · exact key opp.id j (Or.inr rfl) (Or.inr hj)
      (fun y hy => by rw [hj] at hy; injection hy with hy; rw [hy])

theorem stepShape_i_ne_j {st : EngState} {i j : Nat} {o opp : Order}
    (hi : st.orders[i]? = some o) (hj : st.orders[j]? = some opp)
    (hid : opp.id ≠ o.id) : i ≠ j := by
  intro he
  subst he
  rw [hi] at hj
  injection hj with hj
  subst hj
  exact hid rfl

theorem shape_orders_map_id {st : EngState} {r : EngState × Bool × List MEvent}
    (h : StepShape st r) : r.1.orders.map Order.id = st.orders.map Order.id := by
  cases h with
  | frame => rfl
  | bad i o hi hq => exact map_set' Order.id st.orders i _ o hi rfl
  | matched i j o opp s bal hi hj hqi hqj hid hsid =>
    have hij : i ≠ j := stepShape_i_ne_j hi hj hid
    have h1 : (st.orders.set i { o with status := "filled" })[j]? = some opp := by
      rw [getElem?_set', if_neg (fun he => hij he.symm)]
      exact hj
    calc ((st.orders.set i { o with status := "filled" }).set j
            { opp with status := "filled" }).map Order.id
        = (st.orders.set i { o with status := "filled" }).map Order.id :=
          map_set' Order.id _ j _ opp h1 rfl
      _ = st.orders.map Order.id := map_set' Order.id st.orders i _ o hi rfl

theorem shape_preserves_nonqueued {st : EngState} {r : EngState × Bool × List MEvent}
    (h : StepShape st r) (k : Nat) (y : Order)
    (hk : st.orders[k]? = some y) (hny : y.status ≠ "queued") :
    r.1.orders[k]? = some y := by
  cases h with
  | frame => exact hk
  | bad i o hi hq =>
    have hki : k ≠ i := by
      intro he; subst he; rw [hi] at hk; injection hk with hk; subst hk; exact hny hq
    rw [getElem?_set', if_neg hki]
    exact hk
  | matched i j o opp s bal hi hj hqi hqj hid hsid =>
    have hki : k ≠ i := by
      intro he; subst he; rw [hi] at hk; injection hk with hk; subst hk; exact hny hqi
    have hkj : k ≠ j := by
      intro he; subst he; rw [hj] at hk; injection hk with hk; subst hk; exact hny hqj
    rw [getElem?_set', if_neg hkj, getElem?_set', if_neg hki]
    exact hk

theorem shape_settlements {st : EngState} {r : EngState × Bool × List MEvent}
    (h : StepShape st r) :
    r.1.settlements = st.settlements ++ r.2.2.map MEvent.settlement := by
  cases h with
  | frame => simp
  | bad i o hi hq => simp
  | matched i j o opp s bal hi hj hqi hqj hid hsid => simp

theorem shape_idQueued_false {st : EngState} {r : EngState × Bool × List MEvent}
    (h : StepShape st r) (x : String) (hx : idQueuedL st.orders x = false) :
    idQueuedL r.1.orders x = false := by
  cases h with
  | frame => exact hx
  | bad i o hi hq => exact idQueuedL_set_false st.orders i _ (by simp) x hx
  | matched i j o opp s bal hi hj hqi hqj hid hsid =>
    exact idQueuedL_set_false _ j _ (by simp) x
      (idQueuedL_set_false st.orders i _ (by simp) x hx)

theorem shape_event_ids {st : EngState} {r : EngState × Bool × List MEvent}
    (h : StepShape st r) (ev : MEvent) (hev : ev ∈ r.2.2) :
    idQueuedL st.orders ev.subjectId = true ∧ idQueuedL st.orders ev.counterId = true ∧
      ev.subjectId ≠ ev.counterId ∧
      ev.settlement.id = ev.subjectId ++ ":" ++ ev.counterId := by
  cases h with
  | frame => simp at hev
  | bad i o hi hq => simp at hev
  | matched i j o opp s bal hi hj hqi hqj hid hsid =>
    have hev2 : ev = ⟨o.id, opp.id, s⟩ := by simpa using hev
    subst hev2
    refine ⟨?_, ?_, ?_, ?_⟩
    · exact (any_getElem?' _ _).mpr ⟨i, o, hi, by simp [hqi]⟩
    · exact (any_getElem?' _ _).mpr ⟨j, opp, hj, by simp [hqj]⟩
    · exact fun he => hid he.symm
    · exact hsid

theorem shape_event_unqueued {st : EngState} {r : EngState × Bool × List MEvent}
    (h : StepShape st r) (ev : MEvent) (hev : ev ∈ r.2.2)
    (hnd : nodupKeys (st.orders.map Order.id) = true) :
    idQueuedL r.1.orders ev.subjectId = false ∧
      idQueuedL r.1.orders ev.counterId = false := by
  cases h with
  | frame => simp at hev
  | bad i o hi hq => simp at hev
  | matched i j o opp s bal hi hj hqi hqj hid hsid =>
    have hev2 : ev = ⟨o.id, opp.id, s⟩ := by simpa using hev
    subst hev2
    have hij : i ≠ j := stepShape_i_ne_j hi hj hid
    exact idQueuedL_match_false st.orders i j o opp hi hj hij hnd

theorem shape_evs_short {st : EngState} {r : EngState × Bool × List MEvent}
    (h : StepShape st r) : r.2.2.length ≤ 1 := by
  cases h with
  | frame => simp
  | bad i o hi hq => simp
  | matched i j o opp s bal hi hj hqi hqj hid hsid => simp

theorem passFrom_trace_no_mention (bo : BoxOpen) (pt : ParseTerms Terms) (now : Nat) :
    ∀ (fuel i : Nat) (st : EngState) (ch : Bool) (x : String),
      idQueuedL st.orders x = false →
      (passFrom bo pt now fuel i st ch).2.2.filter (mentionsEv x) = [] := by
  intro fuel
  induction fuel with
  | zero => intro i st ch x _; simp [passFrom]
  | succ fuel ih =>
    intro i st ch x hx
    simp only [passFrom]
    cases hget : st.orders[i]? with
    | none => simp
    | some o =>
      dsimp only
      have hsh := stepOrder_shape bo pt now st i
      rw [List.filter_append]
      have h1 : (stepOrder bo pt now st i).2.2.filter (mentionsEv x) = [] := by
        rw [List.filter_eq_nil_iff]
        intro ev hev
        obtain ⟨hs, hc, _, _⟩ := shape_event_ids hsh ev hev
        have hxs : ev.subjectId ≠ x := by
          intro he; rw [he] at hs; rw [hs] at hx; exact absurd hx (by simp)
        have hxc : ev.counterId ≠ x := by
          intro he; rw [he] at hc; rw [hc] at hx; exact absurd hx (by simp)
        simp [mentionsEv, hxs, hxc]
      rw [h1]
      have h2 := ih (i + 1) (stepOrder bo pt now st i).1 (ch || (stepOrder bo pt now st i).2.1)
        x (shape_idQueued_false hsh x hx)
      simpa using h2

theorem passFrom_trace_mention_once (bo : BoxOpen) (pt : ParseTerms Terms) (now : Nat) :
    ∀ (fuel i : Nat) (st : EngState) (ch : Bool) (x : String),
      nodupKeys (st.orders.map Order.id) = true →
      ((passFrom bo pt now fuel i st ch).2.2.filter (mentionsEv x)).length ≤ 1 := by
  intro fuel
  induction fuel with
  | zero => intro i st ch x _; simp [passFrom]
  | succ fuel ih =>
    intro i st ch x hnd
    simp only [passFrom]
    cases hget : st.orders[i]? with
    | none => simp
    | some o =>
      dsimp only
      have hsh := stepOrder_shape bo pt now st i
      rw [List.filter_append, List.length_append]
      have hnd2 : nodupKeys ((stepOrder bo pt now st i).1.orders.map Order.id) = true := by
        rw [shape_orders_map_id hsh]; exact hnd
      cases hfe : (stepOrder bo pt now st i).2.2.filter (mentionsEv x) with
      | nil =>
        have h2 := ih (i + 1) (stepOrder bo pt now st i).1
          (ch || (stepOrder bo pt now st i).2.1) x hnd2
        simpa using h2
      | cons e es =>
        have hemem : e ∈ (stepOrder bo pt now st i).2.2 ∧ mentionsEv x e = true := by
          have : e ∈ (stepOrder bo pt now st i).2.2.filter (mentionsEv x) := by
            rw [hfe]; exact List.mem_cons_self e es
          exact ⟨List.mem_of_mem_filter this, List.of_mem_filter this⟩
        have hx2 : idQueuedL (stepOrder bo pt now st i).1.orders x = false := by
          obtain ⟨hsu, hcu⟩ := shape_event_unqueued hsh e hemem.1 hnd
          have := hemem.2
          rw [mentionsEv, Bool.or_eq_true] at this
          rcases this with hcase | hcase
          · rw [show e.subjectId = x from by simpa using hcase] at hsu; exact hsu
          · rw [show e.counterId = x from by simpa using hcase] at hcu; exact hcu
        have hrest : (passFrom bo pt now fuel (i + 1) (stepOrder bo pt now st i).1
            (ch || (stepOrder bo pt now st i).2.1)).2.2.filter (mentionsEv x) = [] :=
          passFrom_trace_no_mention bo pt now fuel (i + 1) _ _ x hx2
        rw [hrest]
        have hlen : ((stepOrder bo pt now st i).2.2.filter (mentionsEv x)).length ≤ 1 :=
          le_trans (List.length_filter_le _ _) (shape_evs_short hsh)
        rw [hfe] at hlen
        simpa using hlen

theorem passFrom_preserves_nonqueued (bo : BoxOpen) (pt : ParseTerms Terms) (now : Nat) :
    ∀ (fuel i : Nat) (st : EngState) (ch : Bool) (k : Nat) (y : Order),
      st.orders[k]? = some y → y.status ≠ "queued" →
      (passFrom bo pt now fuel i st ch).1.orders[k]? = some y := by
  intro fuel
  induction fuel with
  | zero => intro i st ch k y hk _; simpa [passFrom] using hk
  | succ fuel ih =>
    intro i st ch k y hk hny
    simp only [passFrom]
    cases hget : st.orders[i]? with
    | none => simpa using hk
    | some o =>
      dsimp only
      have hsh := stepOrder_shape bo pt now st i
      exact ih (i + 1) _ _ k y (shape_preserves_nonqueued hsh k y hk hny) hny

theorem passFrom_settlements (bo : BoxOpen) (pt : ParseTerms Terms) (now : Nat) :
    ∀ (fuel i : Nat) (st : EngState) (ch : Bool),
      (passFrom bo pt now fuel i st ch).1.settlements
        = st.settlements ++ (passFrom bo pt now fuel i st ch).2.2.map MEvent.settlement := by
  intro fuel
  induction fuel with
  | zero => intro i st ch; simp [passFrom]
  | succ fuel ih =>
    intro i st ch
    simp only [passFrom]
    cases hget : st.orders[i]? with
    | none => simp
    | some o =>
      dsimp only
      have hsh := stepOrder_shape bo pt now st i
      rw [ih (i + 1) _ _, shape_settlements hsh]
      simp [List.append_assoc]

/-! ## Balance-ledger lemmas -/

theorem getBal_nil (k : String) : getBal [] k = 0 := rfl

theorem find?_cons_bal (hd : String × Int) (t : List (String × Int)) (k : String) :
    List.find? (fun p => p.1 == k) (hd :: t)
      = if (hd.1 == k) = true then some hd else List.find? (fun p => p.1 == k) t := by
  rw [List.find?]
  cases h : (hd.1 == k) with
  | true => simp [h]
  | false => simp [h]

theorem getBal_cons (hd : String × Int) (t : List (String × Int)) (k : String) :
    getBal (hd :: t) k = if (hd.1 == k) = true then hd.2 else getBal t k := by
  rw [getBal, find?_cons_bal]
  by_cases h : (hd.1 == k) = true
  · rw [if_pos h, if_pos h]
  · rw [if_neg h, if_neg h, getBal]

theorem getBal_map_self (k : String) (v : Int) :
    ∀ (b : List (String × Int)), b.any (fun p => p.1 == k) = true →
      getBal (b.map (fun p => if p.1 == k then (k, v) else p)) k = v := by
  intro b
  induction b with
  | nil => intro h; simp at h
  | cons hd t ih =>
    intro h
    by_cases h1 : (hd.1 == k) = true
    · simp only [List.map_cons, if_pos h1]
      rw [getBal_cons]
      simp
    · simp only [List.map_cons, if_neg h1]
      rw [getBal_cons, if_neg (by simpa using h1)]
      have h2 : t.any (fun p => p.1 == k) = true := by
        rw [List.any_cons] at h
        rcases Bool.or_eq_true_iff.mp h with hc | hc
        · exact absurd hc h1
        · exact hc
      exact ih h2

theorem getBal_map_ne (k k' : String) (v : Int) (hne : k' ≠ k) :
    ∀ (b : List (String × Int)),
      getBal (b.map (fun p => if p.1 == k then (k, v) else p)) k' = getBal b k' := by
  have hkk : (k == k') = false := by
    have : ¬k = k' := fun he => hne he.symm
    simpa using this
  intro b
  induction b with
  | nil => rfl
  | cons hd t ih =>
    by_cases h1 : (hd.1 == k) = true
    · have hd1 : hd.1 = k := by simpa using h1
      simp only [List.map_cons, if_pos h1]
      rw [getBal_cons, getBal_cons]
      simp only [hkk, hd1]
      rw [if_neg (by simp), if_neg (by simp [hkk]), ih]
    · simp only [List.map_cons, if_neg h1]
      rw [getBal_cons, getBal_cons, ih]

theorem getBal_append_single_self (k : String) (v : Int) :
    ∀ (b : List (String × Int)), b.any (fun p => p.1 == k) = false →
      getBal (b ++ [(k, v)]) k = v := by
  intro b
  induction b with
  | nil => intro _; rw [List.nil_append, getBal_cons]; simp
  | cons hd t ih =>
    intro h
    rw [List.any_cons, Bool.or_eq_false_iff] at h
    rw [List.cons_append, getBal_cons, if_neg (by simp [h.1])]
    exact ih h.2

theorem getBal_append_single_ne (k k' : String) (v : Int) (hne : k' ≠ k) :
    ∀ (b : List (String × Int)), getBal (b ++ [(k, v)]) k' = getBal b k' := by
  intro b
  induction b with
  | nil =>
    rw [List.nil_append, getBal_cons, getBal_nil,
      if_neg (by simpa using fun he : k = k' => hne he.symm)]
  | cons hd t ih =>
    rw [List.cons_append, getBal_cons, getBal_cons, ih]

theorem getBal_setBal_self (b : List (String × Int)) (k : String) (v : Int) :
    getBal (setBal b k v) k = v := by
  rw [setBal]
  by_cases h : b.any (fun p => p.1 == k) = true
  · rw [if_pos h]; exact getBal_map_self k v b h
  · rw [if_neg h]
    exact getBal_append_single_self k v b (by rw [Bool.not_eq_true] at h; exact h)

theorem getBal_setBal_ne (b : List (String × Int)) (k k' : String) (v : Int)
    (hne : k' ≠ k) : getBal (setBal b k v) k' = getBal b k' := by
  rw [setBal]
  by_cases h : b.any (fun p => p.1 == k) = true
  · rw [if_pos h]; exact getBal_map_ne k k' v hne b
  · rw [if_neg h]; exact getBal_append_single_ne k k' v hne b

theorem idQueuedL_false_of_entry (l : List Order) (k : Nat) (o : Order)
    (hnd : nodupKeys (l.map Order.id) = true)
    (hk : l[k]? = some o) (hno : (o.status == "queued") = false) :
    idQueuedL l o.id = false := by
  rw [idQueuedL_false_iff]
  intro k2 y hk2
  by_cases hkk : k2 = k
  · subst hkk
    rw [hk2] at hk
    injection hk with hk
    subst hk
    simp [hno]
  · have hky : (l.map Order.id)[k2]? = some y.id := by rw [getElem?_map', hk2]; rfl
    have hko : (l.map Order.id)[k]? = some o.id := by rw [getElem?_map', hk]; rfl
    have := nodup_getElem?_ne' (l.map Order.id) k2 k y.id o.id hnd hky hko hkk
    simp [this]

/-! ## Step equations for individual worker-loop branches -/

theorem stepOrder_demo_match (bo : BoxOpen) (pt : ParseTerms Terms) (now : Nat)
    (st : EngState) (i : Nat) (o : Order) (j : Nat) (opp : Order)
    (hget : st.orders[i]? = some o) (hq : o.status = "queued")
    (hd : isDemoOrder o = true) (hfq : findQ (demoPred o) st.orders = some (j, opp)) :
    stepOrder bo pt now st i
      = (⟨(st.orders.set i { o with status := "filled" }).set j { opp with status := "filled" },
          st.settlements ++ [demoSettlement o opp now], st.balances⟩,
         true, [⟨o.id, opp.id, demoSettlement o opp now⟩]) := by
  unfold stepOrder
  rw [hget]
  dsimp only
  rw [if_neg (by simp [hq]), if_pos hd, hfq]

theorem stepOrder_demo_balances (bo : BoxOpen) (pt : ParseTerms Terms) (now : Nat)
    (st : EngState) (i : Nat) (o : Order)
    (hget : st.orders[i]? = some o) (hd : isDemoOrder o = true) :
    (stepOrder bo pt now st i).1.balances = st.balances := by
  unfold stepOrder
  rw [hget]
  dsimp only
  by_cases hs : (o.status != "queued") = true
  · rw [if_pos hs]
  · rw [if_neg hs, if_pos hd]
    cases hfq : findQ (demoPred o) st.orders with
    | none => rfl
    | some r => obtain ⟨j, opp⟩ := r; rfl

theorem stepOrder_demo_oracle_free (bo1 bo2 : BoxOpen) (pt1 pt2 : ParseTerms Terms)
    (now : Nat) (st : EngState) (i : Nat) (o : Order)
    (hget : st.orders[i]? = some o) (hd : isDemoOrder o = true) :
    stepOrder bo1 pt1 now st i = stepOrder bo2 pt2 now st i := by
  unfold stepOrder
  rw [hget]
  dsimp only
  by_cases hs : (o.status != "queued") = true
  · rw [if_pos hs, if_pos hs]
  · rw [if_neg hs, if_neg hs, if_pos hd, if_pos hd]

theorem stepOrder_authfail (bo : BoxOpen) (pt : ParseTerms Terms) (now : Nat)
    (st : EngState) (i : Nat) (o : Order)
    (hget : st.orders[i]? = some o) (hq : o.status = "queued")
    (hd : isDemoOrder o = false)
    (hbo : bo o.ciphertext o.nonce o.senderPublicKey = Except.ok none) :
    stepOrder bo pt now st i
      = (⟨st.orders.set i { o with status := "bad" }, st.settlements, st.balances⟩,
         true, []) := by
  unfold stepOrder
  rw [hget]
  dsimp only
  rw [if_neg (by simp [hq]), if_neg (by simp [hd]), hbo]

theorem stepOrder_parsefail (bo : BoxOpen) (pt : ParseTerms Terms) (now : Nat)
    (st : EngState) (i : Nat) (o : Order) (s : String)
    (hget : st.orders[i]? = some o) (hq : o.status = "queued")
    (hd : isDemoOrder o = false)
    (hbo : bo o.ciphertext o.nonce o.senderPublicKey = Except.ok (some s))
    (hpt : pt s = none) :
    stepOrder bo pt now st i = (st, false, []) := by
  unfold stepOrder
  rw [hget]
  dsimp only
  rw [if_neg (by simp [hq]), if_neg (by simp [hd]), hbo]
  dsimp only
  rw [hpt]

theorem passFrom_authfail_continues (bo : BoxOpen) (pt : ParseTerms Terms) (now : Nat)
    (st : EngState) (i : Nat) (o : Order) (fuel : Nat) (ch : Bool)
    (hget : st.orders[i]? = some o) (hq : o.status = "queued")
    (hd : isDemoOrder o = false)
    (hbo : bo o.ciphertext o.nonce o.senderPublicKey = Except.ok none) :
    passFrom bo pt now (fuel + 1) i st ch
      = passFrom bo pt now fuel (i + 1)
          ⟨st.orders.set i { o with status := "bad" }, st.settlements, st.balances⟩ true := by
  simp only [passFrom]
  rw [hget]
  dsimp only
  rw [stepOrder_authfail bo pt now st i o hget hq hd hbo]
  simp

theorem quiet_step (bo : BoxOpen) (pt : ParseTerms Terms) (now : Nat)
    (st : EngState) (i : Nat)
    (hquiet : ∀ o ∈ st.orders, quietOB bo pt st o = true) :
    stepOrder bo pt now st i = (st, false, []) := by
  unfold stepOrder
  cases hget : st.orders[i]? with
  | none => rfl
  | some o =>
    dsimp only
    have ho := hquiet o (getElem?_mem' hget)
    rw [quietOB] at ho
    by_cases hs : (o.status != "queued") = true
    · rw [if_pos hs]
    · rw [if_neg hs]
      rw [if_neg hs] at ho
      have hqstat : o.status = "queued" := by simpa using hs
      by_cases hd : isDemoOrder o = true
      · rw [if_pos hd]
        rw [if_pos hd] at ho
        cases hfq : findQ (demoPred o) st.orders with
        | none => rfl
        | some r => rw [hfq] at ho; simp at ho
      · rw [if_neg hd]
        rw [if_neg hd] at ho
        cases hbo : bo o.ciphertext o.nonce o.senderPublicKey with
        | error e => rfl
        | ok w =>
          rw [hbo] at ho
          cases w with
          | none => dsimp only at ho; exact absurd ho (by simp)
          | some s =>
            dsimp only at ho ⊢
            cases hpt : pt s with
            | none => rfl
            | some json =>
              rw [hpt] at ho
              dsimp only at ho ⊢
              cases hfe : findOppEnc bo pt json.side json.price o.id st.orders with
              | error e => rfl
              | ok w2 =>
                rw [hfe] at ho
                cases w2 with
                | none =>
                  dsimp only
                  rw [order_set_status_self o hqstat, set_same' st.orders i o hget,
                    engstate_eta]
                | some r => dsimp only at ho; exact absurd ho (by simp)

theorem quiet_pass (bo : BoxOpen) (pt : ParseTerms Terms) (now : Nat) (st : EngState)
    (hquiet : ∀ o ∈ st.orders, quietOB bo pt st o = true) :
    ∀ (fuel i : Nat) (ch : Bool), passFrom bo pt now fuel i st ch = (st, ch, []) := by
  intro fuel
  induction fuel with
  | zero => intro i ch; rfl
  | succ fuel ih =>
    intro i ch
    simp only [passFrom]
    cases hget : st.orders[i]? with
    | none => rfl
    | some o =>
      dsimp only
      rw [quiet_step bo pt now st i hquiet]
      dsimp only
      rw [Bool.or_false, ih (i + 1) ch]
      rfl

theorem stepOrder_enc_subject_counterpart (bo : BoxOpen) (pt : ParseTerms Terms)
    (now : Nat) (st : EngState) (i : Nat) (o : Order)
    (hget : st.orders[i]? = some o) (hd : isDemoOrder o = false) :
    ∀ ev ∈ (stepOrder bo pt now st i).2.2,
      ∃ (j : Nat) (opp : Order), st.orders[j]? = some opp ∧ opp.id = ev.counterId ∧
        isDemoOrder opp = false := by
  unfold stepOrder
  rw [hget]
  dsimp only
  by_cases hs : (o.status != "queued") = true
  · rw [if_pos hs]; intro ev hev; simp at hev
  · rw [if_neg hs, if_neg (by simp [hd])]
    cases hbo : bo o.ciphertext o.nonce o.senderPublicKey with
    | error e => intro ev hev; simp at hev
    | ok w =>
      cases w with
      | none => intro ev hev; simp at hev
      | some plain =>
        dsimp only
        cases hpt : pt plain with
        | none => intro ev hev; simp at hev
        | some json =>
          dsimp only
          cases hfe : findOppEnc bo pt json.side json.price o.id st.orders with
          | error e => intro ev hev; simp at hev
          | ok w2 =>
            cases w2 with
            | none => intro ev hev; simp at hev
            | some r =>
              obtain ⟨j, opp, oppJson⟩ := r
              obtain ⟨hj, hq2, hid2, hcd⟩ :=
                findOppEnc_some bo pt json.side json.price o.id st.orders j opp oppJson hfe
              intro ev hev
              have hev2 : ev = ⟨o.id, opp.id, encSettlement o json opp oppJson now⟩ := by
                simpa using hev
              subst hev2
              exact ⟨j, opp, hj, rfl, by simp [isDemoOrder, hcd]⟩

/-! ## Claim theorems -/

/-- C1: the claim states that the orders write-back at the end of a pass
is a merge on order id, so an order appended by the intake mid-pass is
still present after the write-back and eligible for the next pass.  The
code (worker.js line 137) overwrites the whole orders file with the
pass's in-memory snapshot whenever `changed` is set.  At this concrete
interleaving — the worker reads a snapshot of two matching demo orders,
the intake appends order "3" to the file, the pass finishes and writes
back its snapshot — the write-back installs the snapshot verbatim and
order "3" is no longer in the collection, so it can never match. -/
theorem C1_write_back_drops_concurrent_append :
    submitOrder "CT" "NN" "SPK" (some "buy") (some 7) (some 1) "3" 5 = some c1NewOrder ∧
    (runPass boFailAll ptFailAll 0 demoScenario).2.1 = true ∧
    ordersFileAfterPass (runPass boFailAll ptFailAll 0 demoScenario).1.orders
        (runPass boFailAll ptFailAll 0 demoScenario).2.1
        (appendOrder demoScenario.orders c1NewOrder)
      = (runPass boFailAll ptFailAll 0 demoScenario).1.orders ∧
    c1NewOrder.id ∈ (appendOrder demoScenario.orders c1NewOrder).map Order.id ∧
    c1NewOrder.id ∉ ((runPass boFailAll ptFailAll 0 demoScenario).1.orders.map Order.id) := by
  refine ⟨rfl, rfl, rfl, by decide, by decide⟩

/-- C2: the claim states that settlement append, balance update and the
two FILLED flips become visible together, all three or none.  Evaluating
the pass at the spec's own demo scenario (demo BUY at 10 for 5, then demo
SELL at 10 for 3): the settlement "1:2" is appended and both orders are
flipped to filled, but the balances ledger is left completely untouched —
the demo branch of worker.js (lines 46-69) performs no balance write at
all, and the three updates are separate unsynchronised file writes with
no pair-key idempotency check. -/
theorem C2_demo_settlement_skips_balance_write :
    ((runPass boFailAll ptFailAll 0 demoScenario).1.settlements.map Settlement.id
      = ["1:2"]) ∧
    ((runPass boFailAll ptFailAll 0 demoScenario).1.orders.map Order.status
      = ["filled", "filled"]) ∧
    (runPass boFailAll ptFailAll 0 demoScenario).1.balances = demoScenario.balances := by
  refine ⟨rfl, rfl, rfl⟩

/-- C3 counterexample: the claim promises that the demo scenario ends
with the buyer's balance at -30 and the seller's at +30.  The pass
produces the settlement (amount 3) and fills both orders, but the
balances ledger stays empty: every owner's balance reads 0, not -30/+30,
because the demo branch never updates balances. -/
theorem C3_demo_scenario_balances_unchanged :
    ((runPass boFailAll ptFailAll 0 demoScenario).1.settlements.map Settlement.amount
      = [some 3]) ∧
    ((runPass boFailAll ptFailAll 0 demoScenario).1.orders.map Order.status
      = ["filled", "filled"]) ∧
    (runPass boFailAll ptFailAll 0 demoScenario).1.balances = [] ∧
    getBal (runPass boFailAll ptFailAll 0 demoScenario).1.balances "spkA" = 0 ∧
    getBal (runPass boFailAll ptFailAll 0 demoScenario).1.balances "spkB" = 0 := by
  refine ⟨rfl, rfl, rfl, rfl, rfl⟩

/-- C3 as amended: only the encrypted match branch updates the balance
ledger; there, for a settlement between distinct non-empty owners, the
buy-side owner's entry changes by exactly -(amount*price) and the
sell-side owner's by exactly +(amount*price).  A step whose subject is a
demo-mode order never touches the balances, so the demo
BUY×SELL scenario yields one settlement with both orders filled and an
unchanged (empty) balance ledger. -/
theorem C3_amended_balance_update :
    (∀ (bo : BoxOpen) (pt : ParseTerms Terms) (now : Nat) (st : EngState) (i : Nat)
        (o : Order), st.orders[i]? = some o → isDemoOrder o = true →
        (stepOrder bo pt now st i).1.balances = st.balances) ∧
    (∀ (b : List (String × Int)) (s : Settlement) (ob os : String),
        s.buy.owner = some ob → s.sell.owner = some os → ob ≠ os → ob ≠ "" → os ≠ "" →
        getBal (updateBalances b s) ob
            = getBal b ob - s.amount.getD 0 * s.price.getD 0 ∧
        getBal (updateBalances b s) os
            = getBal b os + s.amount.getD 0 * s.price.getD 0) ∧
    ((runPass boFailAll ptFailAll 0 demoScenario).1.settlements.length = 1 ∧
      (runPass boFailAll ptFailAll 0 demoScenario).1.balances = []) := by
  refine ⟨?_, ?_, rfl, rfl⟩
  · intro bo pt now st i o hget hd
    exact stepOrder_demo_balances bo pt now st i o hget hd
  · intro b s ob os hob hos hne hob0 hos0
    have hkB : jsOwnerKey s.buy.owner "buyer" = ob := by
      rw [hob]; simp [jsOwnerKey, hob0]
    have hkS : jsOwnerKey s.sell.owner "seller" = os := by
      rw [hos]; simp [jsOwnerKey, hos0]
    have hrB : jsOwnerRead b s.buy.owner = getBal b ob := by rw [hob]; rfl
    have hrS : ∀ (b2 : List (String × Int)), jsOwnerRead b2 s.sell.owner = getBal b2 os := by
      intro b2; rw [hos]; rfl
    simp only [updateBalances, hkB, hkS, hrB, hrS]
    constructor
    · rw [getBal_setBal_ne _ os ob _ hne, getBal_setBal_self]
    · rw [getBal_setBal_self, getBal_setBal_ne _ ob os _ (fun he => hne he.symm)]

/-- Witness for the amended C3: a demo step leaves the balances of the
demo scenario unchanged, and the concrete encrypted settlement between
alice and bob moves alice by -30 and bob by +30 on the empty ledger. -/
theorem C3_amended_balance_update_witness :
    ((stepOrder boFailAll ptFailAll 0 demoScenario 0).1.balances
        = demoScenario.balances) ∧
    (getBal (updateBalances [] c3WitSettlement) "alice"
        = getBal [] "alice" - c3WitSettlement.amount.getD 0 * c3WitSettlement.price.getD 0 ∧
      getBal (updateBalances [] c3WitSettlement) "bob"
        = getBal [] "bob" + c3WitSettlement.amount.getD 0 * c3WitSettlement.price.getD 0) :=
  ⟨C3_amended_balance_update.1 boFailAll ptFailAll 0 demoScenario 0
      (demoOrder "1" "buy" 10 5 "spkA") rfl rfl,
    C3_amended_balance_update.2.1 [] c3WitSettlement "alice" "bob" rfl rfl
      (by decide) (by decide) (by decide)⟩

/-- C4 counterexample: the claim states a queued demo order never matches
an encrypted order unless that order's envelope decrypts successfully
first.  Under a decryption oracle for which every envelope fails
authenticated decryption, the pass still matches the demo buy "1" against
the encrypted order "2" purely on the cleartext side/price stored next to
its ciphertext, settles them and fills both — no decryption ever
succeeded. -/
theorem C4_demo_matches_undecryptable_encrypted :
    isDemoOrder c4Enc = false ∧
    boFailAll c4Enc.ciphertext c4Enc.nonce c4Enc.senderPublicKey = Except.ok none ∧
    ((runPass boFailAll ptFailAll 0 c4St).2.2.map (fun e => (e.subjectId, e.counterId))
      = [("1", "2")]) ∧
    ((runPass boFailAll ptFailAll 0 c4St).1.settlements.map Settlement.id = ["1:2"]) ∧
    ((runPass boFailAll ptFailAll 0 c4St).1.orders.map Order.status
      = ["filled", "filled"]) := by
  refine ⟨rfl, rfl, rfl, rfl, rfl⟩

/-- C4 as amended: the demo branch matches on the stored cleartext fields
only and never consults decryption at all — a step whose subject is a
demo-mode order computes the same result under any two decryption and
parsing oracles, so encrypted counterparts are consumed without their
envelopes ever being opened. -/
theorem C4_amended_demo_matching_ignores_decryption :
    ∀ (bo1 bo2 : BoxOpen) (pt1 pt2 : ParseTerms Terms) (now : Nat) (st : EngState)
      (i : Nat) (o : Order), st.orders[i]? = some o → isDemoOrder o = true →
      stepOrder bo1 pt1 now st i = stepOrder bo2 pt2 now st i :=
  fun bo1 bo2 pt1 pt2 now st i o hget hd =>
    stepOrder_demo_oracle_free bo1 bo2 pt1 pt2 now st i o hget hd

/-- Witness for the amended C4: the demo-subject step over the mixed
store computes the same result whether no envelope ever decrypts or
every envelope decrypts to garbage. -/
theorem C4_amended_demo_matching_ignores_decryption_witness :
    stepOrder boFailAll ptFailAll 0 c4St 0 = stepOrder boGarbage ptFailAll 0 c4St 0 :=
  C4_amended_demo_matching_ignores_decryption boFailAll boGarbage ptFailAll ptFailAll
    0 c4St 0 (demoOrder "1" "buy" 10 5 "spkA") rfl rfl

/-- C5 counterexample: the claim states an order that decrypts but fails
to parse transitions to REJECTED.  Under an oracle pair where the
envelope opens to the string "nonsense" and parsing fails, the pass
leaves the order exactly as it was — status still queued, `changed`
false, nothing written — so it is retried on every later pass instead of
being rejected (worker.js line 132-135 catches the parse error and
skips the order). -/
theorem C5_malformed_plaintext_stays_queued :
    boGarbage c5Enc.ciphertext c5Enc.nonce c5Enc.senderPublicKey
      = Except.ok (some "nonsense") ∧
    ptFailAll "nonsense" = none ∧
    runPass boGarbage ptFailAll 0 c5St = (c5St, false, []) ∧
    ((runPass boGarbage ptFailAll 0 c5St).1.orders.map Order.status = ["queued"]) := by
  refine ⟨rfl, rfl, rfl, rfl⟩

/-- C5 as amended: a queued encrypted order whose envelope opens but
whose plaintext fails to parse is skipped: the step returns the state
unchanged (status stays QUEUED, no writes, no event), so the order is
retried on every subsequent pass and never becomes REJECTED. -/
theorem C5_amended_parse_failure_leaves_queued :
    ∀ (bo : BoxOpen) (pt : ParseTerms Terms) (now : Nat) (st : EngState) (i : Nat)
      (o : Order) (s : String),
      st.orders[i]? = some o → o.status = "queued" → isDemoOrder o = false →
      bo o.ciphertext o.nonce o.senderPublicKey = Except.ok (some s) → pt s = none →
      stepOrder bo pt now st i = (st, false, []) :=
  fun bo pt now st i o s hget hq hd hbo hpt =>
    stepOrder_parsefail bo pt now st i o s hget hq hd hbo hpt

/-- Witness for the amended C5 at the concrete malformed-plaintext
store. -/
theorem C5_amended_parse_failure_leaves_queued_witness :
    stepOrder boGarbage ptFailAll 0 c5St 0 = (c5St, false, []) :=
  C5_amended_parse_failure_leaves_queued boGarbage ptFailAll 0 c5St 0 c5Enc
    "nonsense" rfl rfl rfl rfl rfl

/-- C6 counterexample: the claim promises that every queued order with at
least one queued opposite-side equal-price counterpart gets exactly one
settlement in a pass — never zero.  With two demo buys "1","2" and one
demo sell "3" all at price 10, order "2" is queued with the queued
opposite-side counterpart "3" at pass start, yet the pass produces only
the settlement pairing "1" with "3" and leaves "2" queued with zero
settlements: its counterpart was consumed by an earlier subject. -/
theorem C6_eligible_subject_unmatched :
    demoPred (demoOrder "2" "buy" 10 5 "b") (demoOrder "3" "sell" 10 4 "c") = true ∧
    (c6St.orders.map Order.status = ["queued", "queued", "queued"]) ∧
    ((runPass boFailAll ptFailAll 0 c6St).2.2.map (fun e => (e.subjectId, e.counterId))
      = [("1", "3")]) ∧
    (runPass boFailAll ptFailAll 0 c6St).1.settlements.length = 1 ∧
    ((runPass boFailAll ptFailAll 0 c6St).1.orders.map Order.status
      = ["filled", "queued", "filled"]) := by
  refine ⟨rfl, rfl, rfl, rfl, rfl⟩

/-- C6 as amended: (1) when the scan reaches a still-queued demo order
that at that moment has an eligible counterpart, the step settles it
exactly once, pairing the first counterpart in store iteration order
(every earlier position fails the eligibility predicate); (2) over a
whole pass on a store with distinct order ids, no order id ever appears
in more than one settlement event; and (3) a step whose subject is not a
demo order only ever pairs it with a non-demo counterpart — an encrypted
subject never pairs with a demo counterpart at all. -/
theorem C6_amended_first_counterpart_at_most_once :
    (∀ (bo : BoxOpen) (pt : ParseTerms Terms) (now : Nat) (st : EngState) (i : Nat)
        (o : Order) (j : Nat) (opp : Order),
        st.orders[i]? = some o → o.status = "queued" → isDemoOrder o = true →
        findQ (demoPred o) st.orders = some (j, opp) →
        stepOrder bo pt now st i
            = (⟨(st.orders.set i { o with status := "filled" }).set j
                  { opp with status := "filled" },
                st.settlements ++ [demoSettlement o opp now], st.balances⟩,
               true, [⟨o.id, opp.id, demoSettlement o opp now⟩]) ∧
          st.orders[j]? = some opp ∧ demoPred o opp = true ∧
          (∀ (k : Nat) (y : Order), k < j → st.orders[k]? = some y →
            demoPred o y = false)) ∧
    (∀ (bo : BoxOpen) (pt : ParseTerms Terms) (now : Nat) (st : EngState) (x : String),
        nodupKeys (st.orders.map Order.id) = true →
        ((runPass bo pt now st).2.2.filter (mentionsEv x)).length ≤ 1) ∧
    (∀ (bo : BoxOpen) (pt : ParseTerms Terms) (now : Nat) (st : EngState) (i : Nat)
        (o : Order) (ev : MEvent), st.orders[i]? = some o → isDemoOrder o = false →
        ev ∈ (stepOrder bo pt now st i).2.2 →
        ∃ (j : Nat) (opp : Order), st.orders[j]? = some opp ∧ opp.id = ev.counterId ∧
          isDemoOrder opp = false) := by
  refine ⟨?_, ?_, ?_⟩
  · intro bo pt now st i o j opp hget hq hd hfq
    obtain ⟨hj, hp, hmin⟩ := findQ_some (demoPred o) st.orders j opp hfq
    exact ⟨stepOrder_demo_match bo pt now st i o j opp hget hq hd hfq, hj, hp, hmin⟩
  · intro bo pt now st x hnd
    exact passFrom_trace_mention_once bo pt now st.orders.length 0 st false x hnd
  · intro bo pt now st i o ev hget hd hev
    exact stepOrder_enc_subject_counterpart bo pt now st i o hget hd ev hev

/-- Witness for the amended C6: on the demo scenario the first step
settles subject "1" with the first eligible counterpart "2"; on the
three-order store no id is mentioned by more than one event of the
pass; and the encrypted-subject step over the two-encrypted-order store
pairs its subject with a non-demo counterpart. -/
theorem C6_amended_first_counterpart_at_most_once_witness :
    (stepOrder boFailAll ptFailAll 0 demoScenario 0
        = (⟨(demoScenario.orders.set 0
                { demoOrder "1" "buy" 10 5 "spkA" with status := "filled" }).set 1
                { demoOrder "2" "sell" 10 3 "spkB" with status := "filled" },
            demoScenario.settlements
              ++ [demoSettlement (demoOrder "1" "buy" 10 5 "spkA")
                    (demoOrder "2" "sell" 10 3 "spkB") 0],
            demoScenario.balances⟩,
           true,
           [⟨"1", "2", demoSettlement (demoOrder "1" "buy" 10 5 "spkA")
              (demoOrder "2" "sell" 10 3 "spkB") 0⟩])) ∧
    ((runPass boFailAll ptFailAll 0 c6St).2.2.filter (mentionsEv "1")).length ≤ 1 ∧
    (∃ (j : Nat) (opp : Order), encSt.orders[j]? = some opp ∧
      opp.id = c6EncEv.counterId ∧ isDemoOrder opp = false) :=
  ⟨(C6_amended_first_counterpart_at_most_once.1 boFailAll ptFailAll 0 demoScenario 0
      (demoOrder "1" "buy" 10 5 "spkA") 1 (demoOrder "2" "sell" 10 3 "spkB")
      rfl rfl rfl rfl).1,
    C6_amended_first_counterpart_at_most_once.2.1 boFailAll ptFailAll 0 c6St "1"
      (by decide),
    C6_amended_first_counterpart_at_most_once.2.2 boTwo ptTwo 0 encSt 0 encO1 c6EncEv
      rfl rfl (by decide)⟩

/-- C7: an order whose envelope fails authenticated decryption is marked
exactly once with the terminal status "bad" (the code's rendering of the
spec's REJECTED): the step replaces only that order's status, writes
nothing else, produces no event, and the pass continues with the next
position instead of throwing.  On any pass over a store with distinct
ids in which the order is already "bad", the order is left untouched, no
settlement event of the pass mentions its id, and the settlements file
grows exactly by the pass's events — so a rejected order is excluded
from all future matching. -/
theorem C7_auth_failure_rejected_once_and_excluded :
    (∀ (bo : BoxOpen) (pt : ParseTerms Terms) (now : Nat) (st : EngState) (i : Nat)
        (o : Order) (fuel : Nat) (ch : Bool),
        st.orders[i]? = some o → o.status = "queued" → isDemoOrder o = false →
        bo o.ciphertext o.nonce o.senderPublicKey = Except.ok none →
        stepOrder bo pt now st i
            = (⟨st.orders.set i { o with status := "bad" }, st.settlements,
                st.balances⟩, true, []) ∧
          passFrom bo pt now (fuel + 1) i st ch
            = passFrom bo pt now fuel (i + 1)
                ⟨st.orders.set i { o with status := "bad" }, st.settlements,
                  st.balances⟩ true) ∧
    (∀ (bo : BoxOpen) (pt : ParseTerms Terms) (now : Nat) (st : EngState) (k : Nat)
        (o : Order), nodupKeys (st.orders.map Order.id) = true →
        st.orders[k]? = some o → o.status = "bad" →
        (runPass bo pt now st).1.orders[k]? = some o ∧
        (runPass bo pt now st).2.2.filter (mentionsEv o.id) = [] ∧
        (runPass bo pt now st).1.settlements
          = st.settlements ++ (runPass bo pt now st).2.2.map MEvent.settlement) := by
  constructor
  · intro bo pt now st i o fuel ch hget hq hd hbo
    exact ⟨stepOrder_authfail bo pt now st i o hget hq hd hbo,
      passFrom_authfail_continues bo pt now st i o fuel ch hget hq hd hbo⟩
  · intro bo pt now st k o hnd hk hbad
    have hnq : o.status ≠ "queued" := by rw [hbad]; decide
    refine ⟨passFrom_preserves_nonqueued bo pt now st.orders.length 0 st false k o hk hnq,
      ?_, passFrom_settlements bo pt now st.orders.length 0 st false⟩
    exact passFrom_trace_no_mention bo pt now st.orders.length 0 st false o.id
      (idQueuedL_false_of_entry st.orders k o hnd hk (by rw [hbad]; decide))

/-- Witness for C7: the auth-failure step on the single-order store marks
it "bad" and the pass continues, and a pass over the store holding the
already-bad order leaves it in place, mentions it in no event, and
appends exactly the pass's events to the settlements. -/
theorem C7_auth_failure_rejected_once_and_excluded_witness :
    (stepOrder boFailAll ptFailAll 0 c5St 0
        = (⟨c5St.orders.set 0 { c5Enc with status := "bad" }, c5St.settlements,
            c5St.balances⟩, true, []) ∧
      passFrom boFailAll ptFailAll 0 1 0 c5St false
        = passFrom boFailAll ptFailAll 0 0 1
            ⟨c5St.orders.set 0 { c5Enc with status := "bad" }, c5St.settlements,
              c5St.balances⟩ true) ∧
    ((runPass boFailAll ptFailAll 0 c7BadSt).1.orders[0]? = some c7BadOrder ∧
      (runPass boFailAll ptFailAll 0 c7BadSt).2.2.filter (mentionsEv c7BadOrder.id) = [] ∧
      (runPass boFailAll ptFailAll 0 c7BadSt).1.settlements
        = c7BadSt.settlements
          ++ (runPass boFailAll ptFailAll 0 c7BadSt).2.2.map MEvent.settlement) :=
  ⟨C7_auth_failure_rejected_once_and_excluded.1 boFailAll ptFailAll 0 c5St 0 c5Enc 0
      false rfl rfl rfl rfl,
    C7_auth_failure_rejected_once_and_excluded.2 boFailAll ptFailAll 0 c7BadSt 0
      c7BadOrder (by decide) rfl rfl⟩

/-- C8 counterexample: the claim states the settlement id is
order-independent over the two matched order ids.  Running the pass on
the demo scenario gives settlement id "1:2" when order "1" is the scanned
subject; running it on the same two orders stored in the opposite order
gives "2:1" — the two ids differ, so the pairing key depends on which
order was the subject. -/
theorem C8_pair_key_role_dependent :
    ((runPass boFailAll ptFailAll 0 demoScenario).1.settlements.map Settlement.id
      = ["1:2"]) ∧
    ((runPass boFailAll ptFailAll 0 c8Swapped).1.settlements.map Settlement.id
      = ["2:1"]) ∧
    ("1:2" : String) ≠ "2:1" := by
  refine ⟨rfl, rfl, by decide⟩

/-- C8 as amended: the settlement id is the deterministic composite
subject-id, colon, counterpart-id — every event a step emits carries a
settlement whose id is exactly that concatenation (and it is
order-dependent: swapping the roles swaps the two halves). -/
theorem C8_amended_settlement_id_structure :
    ∀ (bo : BoxOpen) (pt : ParseTerms Terms) (now : Nat) (st : EngState) (i : Nat)
      (ev : MEvent), ev ∈ (stepOrder bo pt now st i).2.2 →
      ev.settlement.id = ev.subjectId ++ ":" ++ ev.counterId :=
  fun bo pt now st i ev hev =>
    (shape_event_ids (stepOrder_shape bo pt now st i) ev hev).2.2.2

/-- Witness for the amended C8 at the demo scenario's first step. -/
theorem C8_amended_settlement_id_structure_witness :
    c8Ev ∈ (stepOrder boFailAll ptFailAll 0 demoScenario 0).2.2 ∧
    c8Ev.settlement.id = c8Ev.subjectId ++ ":" ++ c8Ev.counterId :=
  ⟨by decide,
    C8_amended_settlement_id_structure boFailAll ptFailAll 0 demoScenario 0 c8Ev
      (by decide)⟩

/-- C9 counterexample: the claim states every persisted order populates
exactly one representation — encrypted envelope or demo cleartext terms,
never both.  The intake persists an encrypted submission that also
carries cleartext side/price/amount (which the bundled frontend always
sends) with a real envelope AND cleartext terms on the same record, so
the exactly-one-representation invariant is false for it. -/
theorem C9_encrypted_with_cleartext_breaks_invariant :
    (submitOrder "CT" "NN" "SPK" (some "buy") (some 10) (some 5) "id1" 0).map
        (fun r => (isRealEnvelope r, hasCleartextTerms r, specExactlyOneRepr r))
      = some (true, true, false) := rfl

/-- C9 as amended: the intake persists a QUEUED record carrying the
submitted envelope verbatim together with whatever cleartext terms
accompanied the submission; whenever a real (non-demo) envelope is
submitted together with a cleartext price, the stored record populates
both representations, falsifying exactly-one. -/
theorem C9_amended_intake_record_contract :
    ∀ (ct n spk : String) (sd : Option String) (pr am : Option Int) (id : String)
      (t : Nat) (r : Order), submitOrder ct n spk sd pr am id t = some r →
      r.status = "queued" ∧ r.id = id ∧ r.ciphertext = ct ∧ r.nonce = n ∧
      r.senderPublicKey = spk ∧ r.side = sd ∧ r.price = pr ∧ r.amount = am ∧
      (isRealEnvelope r = true → pr.isSome = true → specExactlyOneRepr r = false) := by
  intro ct n spk sd pr am id t r h
  rw [submitOrder] at h
  by_cases hg : (ct == "" || n == "" || spk == "") = true
  · rw [if_pos hg] at h; exact absurd h (by simp)
  · rw [if_neg hg] at h
    injection h with h
    subst h
    refine ⟨rfl, rfl, rfl, rfl, rfl, rfl, rfl, rfl, ?_⟩
    intro henv hpr
    simp only [specExactlyOneRepr, hasCleartextTerms, henv]
    simp [hpr]

/-- Witness for the amended C9 at the concrete encrypted-with-cleartext
submission. -/
theorem C9_amended_intake_record_contract_witness :
    submitOrder "CT" "NN" "SPK" (some "buy") (some 10) (some 5) "id1" 0 = some c9Rec ∧
    (c9Rec.status = "queued" ∧ c9Rec.id = "id1" ∧ c9Rec.ciphertext = "CT" ∧
      c9Rec.nonce = "NN" ∧ c9Rec.senderPublicKey = "SPK" ∧ c9Rec.side = some "buy" ∧
      c9Rec.price = some 10 ∧ c9Rec.amount = some 5 ∧
      (isRealEnvelope c9Rec = true → (some (10 : Int)).isSome = true →
        specExactlyOneRepr c9Rec = false)) :=
  ⟨rfl, C9_amended_intake_record_contract "CT" "NN" "SPK" (some "buy") (some 10)
    (some 5) "id1" 0 c9Rec rfl⟩

/-- C10: a pass in which no queued order finds a counterpart and no
queued order fails authenticated decryption performs no writes at all:
the resulting state equals the input state (orders, settlements and
balances files untouched) and the `changed` flag stays false, so the
orders file write-back is skipped. -/
theorem C10_quiet_pass_no_writes :
    ∀ (bo : BoxOpen) (pt : ParseTerms Terms) (now : Nat) (st : EngState),
      (∀ o ∈ st.orders, quietOB bo pt st o = true) →
      runPass bo pt now st = (st, false, []) :=
  fun bo pt now st h => quiet_pass bo pt now st h st.orders.length 0 false

/-- Witness for C10: the single queued demo order with no counterpart is
quiet under the failing oracles, and the pass is the identity. -/
theorem C10_quiet_pass_no_writes_witness :
    (∀ o ∈ c10St.orders, quietOB boFailAll ptFailAll c10St o = true) ∧
    runPass boFailAll ptFailAll 0 c10St = (c10St, false, []) :=
  ⟨by decide, C10_quiet_pass_no_writes boFailAll ptFailAll 0 c10St (by decide)⟩
